import Mathlib

/-!
Verification development for the Music-Mood-Classification repository.

The definitions below are shallow embeddings of the Python sources:
  * src/lyrics_classifier_free.py  (VADER-based lyrics mood heuristic)
  * src/api_server.py              (predict endpoint agreement, stats endpoint)
  * src/run_lyrics_comparison.py   (audio prediction confidence/margin)
  * src/train_audio_model.py       (model selection by CV accuracy)
  * src/audio_data.py              (feature normalization, loudness cleaning)

Machine floats are modelled by exact rationals; where float special values
(NaN, positive and negative infinity) are behaviourally relevant (the numpy probability path) an
explicit value type with those constructors is used.
-/

/- ===================== shared numeric helpers ===================== -/

/-- Clamp a rational to the interval [lo, hi], as pandas/numpy clip does. -/
def clipQ (lo hi q : ℚ) : ℚ := min hi (max lo q)

/-- Python str.strip / pandas .str.strip whitespace test (the ASCII
whitespace characters: space, tab, newline, vertical tab, form feed,
carriage return). -/
def isWsChar (c : Char) : Bool :=
  c == ' ' || c == '\t' || c == '\n' || c == '\x0b' || c == '\x0c' || c == '\r'

/-- Python str.strip on a character list: drop whitespace at both ends. -/
def pyStrip (l : List Char) : List Char :=
  ((l.dropWhile isWsChar).reverse.dropWhile isWsChar).reverse

/-- Numeric value of a digit string (most significant first). -/
def digitsToNat (l : List Char) : ℕ :=
  l.foldl (fun acc c => acc * 10 + (c.toNat - 48)) 0

/-- All characters are decimal digits. -/
def allDigits (l : List Char) : Bool := l.all Char.isDigit

/-- Parse an unsigned decimal literal (digits with at most one dot, at least
one digit overall), the shape accepted by Python float()/pd.to_numeric for
strings made of digits, dots and signs. -/
def parseUnsignedDec (l : List Char) : Option ℚ :=
  let ip := l.takeWhile (fun c => c ≠ '.')
  let rest := l.dropWhile (fun c => c ≠ '.')
  match rest with
  | [] => if allDigits ip && !ip.isEmpty then some (digitsToNat ip) else none
  | _ :: fp =>
      if allDigits ip && allDigits fp && !(ip.isEmpty && fp.isEmpty) then
        some ((digitsToNat ip : ℚ) + (digitsToNat fp : ℚ) / (10 : ℚ) ^ fp.length)
      else none

/-- Parse an optionally signed decimal literal. -/
def parseSignedDec (l : List Char) : Option ℚ :=
  match l with
  | '-' :: rest => (parseUnsignedDec rest).map (fun q => -q)
  | '+' :: rest => parseUnsignedDec rest
  | _ => parseUnsignedDec l

/-- Python str.strip on a string. -/
def strTrim (s : String) : String := String.mk (pyStrip s.data)

/-- Python str.lower on a string. -/
def strLower (s : String) : String := String.mk (s.data.map Char.toLower)

/- ===================== lyrics classifier (lyrics_classifier_free.py) ===================== -/

/-- The four mood labels, `self.mood_labels` in FreeLyricsClassifier. -/
def moodLabels : List String := ["happy", "chill", "sad", "hyped"]

/-- The fixed energetic keyword list of classify_lyrics (lines 68-69). -/
def hypedKeywords : List String :=
  ["party", "dance", "energy", "fire", "wild", "crazy", "lit",
   "pump", "beat", "bass", "drop", "turnt", "hype"]

/-- A lyrics argument accepted by classify_lyrics: Python None, float NaN, or a string. -/
inductive Lyr where
  | missing
  | nanVal
  | text (s : String)
deriving DecidableEq

/-- The guard of classify_lyrics line 28:
`not lyrics or pd.isna(lyrics) or str(lyrics).strip() == ''`.
None and NaN are caught by the first two disjuncts; an empty string is falsy
and a whitespace-only string strips to empty. -/
def lyrIsEmpty : Lyr → Bool
  | .missing => true
  | .nanVal => true
  | .text s => s == "" || strTrim s == ""

/-- `str(lyrics)` for the non-missing cases used after the guard. -/
def lyrStr : Lyr → String
  | .missing => "None"
  | .nanVal => "nan"
  | .text s => s

/-- Substring occurrence at the head of a character list. -/
def subAtHead : List Char → List Char → Bool
  | [], _ => true
  | _ :: _, [] => false
  | a :: as, b :: bs => a == b && subAtHead as bs

/-- Substring occurrence anywhere, the Python `needle in haystack` test. -/
def hasSubList (needle : List Char) : List Char → Bool
  | [] => needle.isEmpty
  | c :: rest => subAtHead needle (c :: rest) || hasSubList needle rest

/-- Python `needle in haystack` on strings. -/
def hasSubStr (needle hay : String) : Bool := hasSubList needle.data hay.data

/-- `any(keyword in lyrics_lower for keyword in hyped_keywords)` where
`lyrics_lower = str(lyrics).lower()` (lines 67-70). -/
def hasHypedKw (s : String) : Bool :=
  hypedKeywords.any (fun kw => hasSubStr kw (strLower s))

/-- The threshold table of classify_lyrics lines 39-64 (if/elif chain,
first match wins).  0.625 = 5/8, 0.55 = 11/20, 0.65 = 13/20. -/
def thresholdTable (compound : ℚ) : String × ℚ :=
  if compound > 1/2 then ("happy", compound)
  else if compound > 1/10 then ("chill", 1/2 + (compound - 1/10) * (5/8))
  else if compound < -(1/2) then ("sad", |compound|)
  else if compound < -(1/10) then
    (if |compound| > 3/10 then ("sad", |compound|)
     else ("chill", 11/20 + (3/10 - |compound|) * (1/2)))
  else ("chill", 13/20)

/-- classify_lyrics (lines 26-85).  The VADER analyzer is external to the
repository, so the compound score is passed as a function of the text.
The source's NaN re-check on `confidence` (line 77) cannot fire over ℚ and
the final mood-membership check (lines 81-82) is kept verbatim. -/
def classifyLyrics (vader : String → ℚ) (inp : Lyr) : String × ℚ :=
  if lyrIsEmpty inp then ("chill", 1/10)
  else
    let compound := vader (lyrStr inp)
    let mc := thresholdTable compound
    let mc2 :=
      if hasHypedKw (lyrStr inp) && decide (compound > 1/5) then
        ("hyped", min (9/10 : ℚ) (|compound| + 1/5))
      else mc
    let conf := max 0 (min 1 mc2.2)
    let mood := if moodLabels.contains mc2.1 then mc2.1 else "chill"
    (mood, conf)

/-- Modelled from the spec wording of claim C1: the ordered threshold table
with the keyword override taking precedence.  Used as the comparison point
for the refinement theorem of C1; the executable source translation is
`classifyLyrics` above. -/
def specMoodMap (kw : Bool) (compound : ℚ) : String × ℚ :=
  if kw ∧ compound > 1/5 then ("hyped", min (9/10 : ℚ) (|compound| + 1/5))
  else if compound > 1/2 then ("happy", compound)
  else if 1/10 < compound ∧ compound ≤ 1/2 then
    ("chill", 1/2 + (compound - 1/10) * (5/8))
  else if compound < -(1/2) then ("sad", |compound|)
  else if -(1/2) ≤ compound ∧ compound < -(1/10) then
    (if |compound| > 3/10 then ("sad", |compound|)
     else ("chill", 11/20 + (3/10 - |compound|) * (1/2)))
  else ("chill", 13/20)

/- ===================== predict endpoint agreement (api_server.py lines 174-193) ===================== -/

/-- A per-model prediction payload as built by the predict endpoint
(`audio_result` / `lyrics_result` dicts). -/
structure ModelResult where
  mood : String
  confidence : ℚ
  lowConfidence : Bool
deriving DecidableEq

/-- The agree computation of the predict endpoint (api_server.py 174-181):
`agree = False`; if both predictions exist, raw string equality of moods;
elif the lyrics prediction is missing, `agree = None`; otherwise the
initial False stands (lyrics present, audio missing). -/
def predictAgree : Option ModelResult → Option ModelResult → Option Bool
  | some a, some l => some (a.mood == l.mood)
  | _, none => none
  | none, some _ => some false

/- ===================== audio predictions (run_lyrics_comparison.py lines 106-132) ===================== -/

/-- A numpy float64 value: finite rational, NaN, or an infinity. -/
inductive FVal where
  | finite (q : ℚ)
  | nanV
  | pinf
  | ninf
deriving DecidableEq

/-- numpy sort order used by np.argsort: -inf < finite < +inf < NaN
(NaN sorts to the end). -/
def npLtB : FVal → FVal → Bool
  | .ninf, .ninf => false
  | .ninf, _ => true
  | .finite _, .ninf => false
  | .finite a, .finite b => a < b
  | .finite _, _ => true
  | .pinf, .nanV => true
  | .pinf, _ => false
  | .nanV, _ => false

/-- Larger of two values in numpy sort order. -/
def npMax2 (a b : FVal) : FVal := if npLtB a b then b else a

/-- Fold a maximum over a list starting from a seed. -/
def npMaxFrom (a : FVal) (l : List FVal) : FVal := l.foldl npMax2 a

/-- The element placed last by np.argsort of a probability row
(the top-1 entry); -inf stands in for the unused empty case. -/
def npMaxL : List FVal → FVal
  | [] => .ninf
  | x :: xs => npMaxFrom x xs

/-- np.clip(v, lo, hi): infinities clamp to the bounds, NaN passes through. -/
def clipFV (lo hi : ℚ) : FVal → FVal
  | .finite q => .finite (min hi (max lo q))
  | .nanV => .nanV
  | .pinf => .finite hi
  | .ninf => .finite lo

/-- IEEE float subtraction on the value type. -/
def fvSub : FVal → FVal → FVal
  | .nanV, _ => .nanV
  | _, .nanV => .nanV
  | .finite x, .finite y => .finite (x - y)
  | .pinf, .pinf => .nanV
  | .pinf, _ => .pinf
  | .ninf, .ninf => .nanV
  | .ninf, _ => .ninf
  | .finite _, .pinf => .ninf
  | .finite _, .ninf => .pinf

/-- np.nan_to_num(v, nan=0.0, posinf=1.0, neginf=0.0). -/
def nanToNum : FVal → ℚ
  | .finite q => q
  | .nanV => 0
  | .pinf => 1
  | .ninf => 0

/-- The probability placed last by argsort: `proba[top1_idx]` (line 110). -/
def topProb (l : List FVal) : FVal := npMaxL l

/-- The probability placed second to last by argsort: `proba[top2_idx]`
(line 111) - the maximum after removing one occurrence of the top value. -/
def secondProb (l : List FVal) : FVal := npMaxL (l.erase (npMaxL l))

/-- Surfaced confidence for one probability row: clip to [0,1] then
nan_to_num (lines 116 and 121). -/
def audioConfidence (l : List FVal) : ℚ := nanToNum (clipFV 0 1 (topProb l))

/-- Surfaced runner-up confidence (lines 117 and 122). -/
def audioSecond (l : List FVal) : ℚ := nanToNum (clipFV 0 1 (secondProb l))

/-- Surfaced margin: raw difference of raw top-2 values, clipped, then
nan_to_num (lines 112, 118 and 123). -/
def audioMargin (l : List FVal) : ℚ :=
  nanToNum (clipFV 0 1 (fvSub (topProb l) (secondProb l)))

/- ===================== model selection (train_audio_model.py lines 46-80) ===================== -/

/-- One candidate estimator with its cross-validation mean accuracy and
held-out test accuracy (the two scores printed and recorded per model). -/
structure Candidate where
  name : String
  cvMean : ℚ
  testAcc : ℚ
deriving DecidableEq

/-- One iteration of the selection loop (lines 79-80): replace the running
best exactly when the candidate has strictly higher CV mean. -/
def selectStep (acc : Option String × ℚ) (c : Candidate) : Option String × ℚ :=
  if acc.2 < c.cvMean then (some c.name, c.cvMean) else acc

/-- The whole selection loop with its initial state
`best_name, best_pipe, best_cv = None, None, -1.0` (line 62). -/
def selectBest (cs : List Candidate) : Option String × ℚ :=
  cs.foldl selectStep (none, -1)

/-- The leftmost candidate attaining the maximal CV mean (ties keep the
earlier entry).  Spec-side characterization of what the loop computes. -/
def firstMaxCand : List Candidate → Option Candidate
  | [] => none
  | c :: rest =>
      match firstMaxCand rest with
      | none => some c
      | some m => if m.cvMean > c.cvMean then some m else some c

/-- Cross-validation configuration used at training time. -/
structure CVConfig where
  nSplits : ℕ
  shuffle : Bool
  stratified : Bool
deriving DecidableEq

/-- `StratifiedKFold(n_splits=5, shuffle=True, random_state=42)` (line 60). -/
def trainCV : CVConfig := { nSplits := 5, shuffle := true, stratified := true }

/-- Registration order of the three candidate families (lines 46-58):
class-balanced logistic regression, k-nearest neighbors, class-weighted
random forest. -/
def candidateNames : List String := ["LogReg", "KNN", "RF"]

/- ===================== loudness cleaning (audio_data.py lines 26-31) ===================== -/

/-- Characters kept by the regex `[^0-9\.\-\+]` removal of clean_loudness. -/
def keepChar (c : Char) : Bool := c.isDigit || c == '.' || c == '-' || c == '+'

/-- The unicode minus sign U+2212 normalized to ASCII by clean_loudness. -/
def mapMinusChar (c : Char) : Char := if c.toNat = 8722 then '-' else c

/-- Lowercase or uppercase letter d. -/
def isDChar (c : Char) : Bool := c == 'd' || c == 'D'

/-- Lowercase or uppercase letter b. -/
def isBChar (c : Char) : Bool := c == 'b' || c == 'B'

/-- The regex `[dD][bB]` global replacement with the empty string:
left-to-right removal of non-overlapping d-b pairs. -/
def removeDb : List Char → List Char
  | [] => []
  | [c] => [c]
  | c1 :: c2 :: rest =>
      if isDChar c1 && isBChar c2 then removeDb rest
      else c1 :: removeDb (c2 :: rest)

/-- clean_loudness on one cell value (audio_data.py lines 26-31):
strip, normalize the unicode minus, drop dB pairs, drop remaining
non-numeric characters, parse (coerce to missing on failure), clip. -/
def cleanLoudnessChars (l : List Char) : Option ℚ :=
  (parseSignedDec ((removeDb ((pyStrip l).map mapMinusChar)).filter keepChar)).map
    (clipQ (-60) 0)

/-- clean_loudness on a string cell. -/
def cleanLoudness (s : String) : Option ℚ := cleanLoudnessChars s.data

/-- Drop a trailing [dD][bB] unit suffix, if present. -/
def stripDbSuffix (l : List Char) : List Char :=
  match l.reverse with
  | b :: d :: rest => if isDChar d && isBChar b then rest.reverse else l
  | _ => l

/-- Modelled from the spec wording of claim C8: strip the dB unit suffix,
normalize the unicode minus sign, discard remaining non-numeric characters,
parse as float, clamp to [-60, 0].  Comparison point for the refinement
theorem of C8; the source translation is `cleanLoudness`. -/
def specCleanLoudness (s : String) : Option ℚ :=
  (parseSignedDec (((stripDbSuffix s.data).map mapMinusChar).filter keepChar)).map
    (clipQ (-60) 0)

/- ===================== feature normalizer (audio_data.py lines 33-69) ===================== -/

/-- A pandas cell: a string, a numeric value, float NaN, or pandas NA. -/
inductive Cell where
  | str (s : String)
  | num (q : ℚ)
  | nanV
  | na
deriving DecidableEq

/-- pandas notna on a cell. -/
def cellNotNA : Cell → Bool
  | .nanV => false
  | .na => false
  | _ => true

/-- astype(str) on a cell.  A Python float prints as digits with an optional
sign, dot or exponent; the num/den rendering used here likewise never
collides with a mood word or an alpha sentinel, which is the only property
the developments below rely on.  Missing cells print as "nan". -/
def pyCellStr : Cell → String
  | .str s => s
  | .num q => toString q.num ++ "/" ++ toString q.den
  | .nanV => "nan"
  | .na => "nan"

/-- A dataframe as an ordered association of column name to cells. -/
abbrev DataFrame := List (String × List Cell)

/-- Count of non-missing cells in a column (`.notna().sum()`). -/
def notnaCount (col : List Cell) : ℕ := col.countP cellNotNA

/-- The alias table of normalize_features (lines 34-47). -/
def renamer : List (String × String) :=
  [("Tempo", "tempo"), ("Energy", "energy"), ("Positiveness", "valence"),
   ("Loudness (db)", "loudness_src"), ("Loudness (dB)", "loudness_src"),
   ("Danceability", "danceability"), ("Speechiness", "speechiness"),
   ("Liveness", "liveness"), ("Acousticness", "acousticness"),
   ("Instrumentalness", "instrumentalness"), ("Artist(s)", "artists"),
   ("song", "track_name")]

/-- df.rename(columns=present): rename each matching label (lines 48-50). -/
def renameStep (df : DataFrame) : DataFrame :=
  df.map (fun nc =>
    match List.lookup nc.1 renamer with
    | some v => (v, nc.2)
    | none => nc)

/-- Column lookup by name. -/
def findCol (df : DataFrame) (name : String) : Option (List Cell) :=
  List.lookup name df

/-- `("loudness" not in df.columns) or (df["loudness"].notna().sum() == 0)`
(line 52). -/
def needLoudness (df : DataFrame) : Bool :=
  match findCol df "loudness" with
  | none => true
  | some col => notnaCount col == 0

/-- The source-column choice of lines 54-60. -/
def loudnessSrc (df : DataFrame) : Option (List Cell) :=
  match findCol df "loudness_src" with
  | some col => if 0 < notnaCount col then some col else noSrcFallback df
  | none => noSrcFallback df
where
  noSrcFallback (df : DataFrame) : Option (List Cell) :=
    match findCol df "Loudness (db)" with
    | some col => if 0 < notnaCount col then some col else lastFallback df
    | none => lastFallback df
  lastFallback (df : DataFrame) : Option (List Cell) :=
    match findCol df "Loudness (dB)" with
    | some col => if 0 < notnaCount col then some col else none
    | none => none

/-- clean_loudness applied to a cell (the series passes through astype(str)
first); an unparseable value becomes float NaN, the missing marker. -/
def cleanLoudnessCell (c : Cell) : Cell :=
  match cleanLoudness (pyCellStr c) with
  | some q => .num q
  | none => .nanV

/-- Column assignment `df["loudness"] = ...`: replace in place or append. -/
def setCol : DataFrame → String → List Cell → DataFrame
  | [], n, c => [(n, c)]
  | (m, old) :: rest, n, c =>
      if m = n then (n, c) :: rest else (m, old) :: setCol rest n c

/-- The loudness-reconstruction step of normalize_features (lines 52-62). -/
def loudnessStep (df : DataFrame) : DataFrame :=
  if needLoudness df then
    match loudnessSrc df with
    | some col => setCol df "loudness" (col.map cleanLoudnessCell)
    | none => df
  else df

/-- The leakage column name prefixes of line 64. -/
def leakMarks : List String := ["Good for ", "Similar ", "Similarity Score"]

/-- Membership of a column in the drop list of line 65: named "Album" or
carrying one of the leak markers as a leading textual marker. -/
def isLeakCol (n : String) : Bool :=
  n == "Album" || leakMarks.any (fun p => subAtHead p.data n.data)

/-- df.drop(columns=drop_cols) (lines 64-67). -/
def dropStep (df : DataFrame) : DataFrame :=
  df.filter (fun nc => !isLeakCol nc.1)

/-- normalize_features (audio_data.py lines 33-69): rename aliases,
reconstruct loudness when absent or all-missing, drop leaking columns. -/
def normalizeFeatures (df : DataFrame) : DataFrame :=
  dropStep (loudnessStep (renameStep df))

/-- The canonical column names of an already-normalized frame: the nine
audio features plus mood and identity fields. -/
def canonicalCols : List String :=
  ["tempo", "energy", "valence", "loudness", "danceability", "speechiness",
   "acousticness", "instrumentalness", "liveness", "mood", "track_name",
   "artists"]

/- ===================== aggregate statistics (api_server.py get_stats) ===================== -/

/-- The valid mood values of the statistics endpoint (line 410). -/
def validMoods : List String := ["happy", "chill", "sad", "hyped"]

/-- `.astype(str).str.lower().str.strip()` on one cell (lines 397-398). -/
def canonCell (c : Cell) : String := strTrim (strLower (pyCellStr c))

/-- A row admitted by the filters of lines 388-417: the cell is non-missing
and its lowercased, stripped text is one of the four moods.  The sentinel
replacement of lines 406-407 maps "nan"/"none"/"null"/"" to NA; none of
these is a valid mood, so the subsequent isin filter subsumes it. -/
def moodCellOk (c : Cell) : Bool :=
  cellNotNA c && decide (canonCell c ∈ validMoods)

/-- One CSV row of songs_with_predictions.csv as used by get_stats. -/
structure PredRow where
  audioPred : Cell
  lyricsPred : Cell
  audioConf : Cell
  lyricsConf : Cell
deriving DecidableEq

/-- df_valid after lines 388-417: rows whose audio and lyrics moods are
present and normalize into the four-mood set. -/
def statsValidRows (corpus : List PredRow) : List PredRow :=
  corpus.filter (fun r => moodCellOk r.audioPred && moodCellOk r.lyricsPred)

/-- `total_count = len(df_valid)` (line 428). -/
def totalValidCount (corpus : List PredRow) : ℕ := (statsValidRows corpus).length

/-- `agreement_count` (lines 426-427): valid rows whose normalized moods
coincide. -/
def agreementCount (corpus : List PredRow) : ℕ :=
  (statsValidRows corpus).countP
    (fun r => canonCell r.audioPred == canonCell r.lyricsPred)

/-- The per-percentage sanitizer of lines 432-433 and 517-519: a value that
is NaN or outside [0,100] is forced to 0.0 (over ℚ the NaN disjunct cannot
fire). -/
def sanitizePct (x : ℚ) : ℚ := if 0 ≤ x ∧ x ≤ 100 then x else 0

/-- `agreement_pct` (lines 429-435). -/
def agreementPct (corpus : List PredRow) : ℚ :=
  if 0 < totalValidCount corpus then
    sanitizePct ((agreementCount corpus : ℚ) / (totalValidCount corpus : ℚ) * 100)
  else 0

/-- The surfaced `agree_pct` (line 635): a final clamp to [0,100]. -/
def agreePctOut (corpus : List PredRow) : ℚ :=
  max 0 (min 100 (agreementPct corpus))

/-- The surfaced `disagree_pct` (lines 627-629 and 636). -/
def disagreePctOut (corpus : List PredRow) : ℚ :=
  let d := 100 - agreementPct corpus
  if 0 ≤ d ∧ d ≤ 100 then d else max 0 (min 100 (100 - agreementPct corpus))

/-- Count of valid rows whose chosen mood column normalizes to `m`. -/
def moodCount (corpus : List PredRow) (get : PredRow → Cell) (m : String) : ℕ :=
  (statsValidRows corpus).countP (fun r => canonCell (get r) == m)

/-- One distribution percentage before the final clamp (lines 441-460):
value_counts(normalize=True)*100 over df_valid, a zero when the mood is
absent from the index, and the NaN/huge-value guard of lines 449 and 457
(which forces values outside [-1000,1000] to 0.0). -/
def distPct (corpus : List PredRow) (get : PredRow → Cell) (m : String) : ℚ :=
  if 0 < moodCount corpus get m then
    let p := (moodCount corpus get m : ℚ) / (totalValidCount corpus : ℚ) * 100
    if -1000 ≤ p ∧ p ≤ 1000 then p else 0
  else 0

/-- The surfaced distribution percentage (lines 464-465): clamp to [0,100]. -/
def distPctOut (corpus : List PredRow) (get : PredRow → Cell) (m : String) : ℚ :=
  max 0 (min 100 (distPct corpus get m))

/-- Python str.capitalize as used for the payload labels. -/
def pyCapitalize (s : String) : String :=
  match s.data with
  | [] => ""
  | c :: rest => String.mk (c.toUpper :: rest.map Char.toLower)

/-- One row of the confusion payload (lines 478-492). -/
structure ConfRow where
  audio : String
  happy : ℕ
  chill : ℕ
  sad : ℕ
  hyped : ℕ
deriving DecidableEq

/-- The confusion matrix of lines 469-492: for each audio mood, the counts
of each lyrics mood among valid rows with that audio mood; explicit zeros
when the audio mood never occurs. -/
def confusionRows (corpus : List PredRow) : List ConfRow :=
  validMoods.map (fun am =>
    let sub := (statsValidRows corpus).filter (fun r => canonCell r.audioPred == am)
    if 0 < sub.length then
      { audio := pyCapitalize am
        happy := sub.countP (fun r => canonCell r.lyricsPred == "happy")
        chill := sub.countP (fun r => canonCell r.lyricsPred == "chill")
        sad := sub.countP (fun r => canonCell r.lyricsPred == "sad")
        hyped := sub.countP (fun r => canonCell r.lyricsPred == "hyped") }
    else
      { audio := pyCapitalize am, happy := 0, chill := 0, sad := 0, hyped := 0 })

/-- Count of valid rows with a given audio/lyrics mood pair. -/
def pairCount (corpus : List PredRow) (am lm : String) : ℕ :=
  (statsValidRows corpus).countP
    (fun r => canonCell r.audioPred == am && canonCell r.lyricsPred == lm)

/-- Sum of all sixteen confusion cells. -/
def confCellSum (rows : List ConfRow) : ℕ :=
  (rows.map (fun cr => cr.happy + cr.chill + cr.sad + cr.hyped)).sum

/-- pd.to_numeric(errors="coerce") on one cell: numbers pass, NaN/NA stay
missing, strings parse as decimal literals or coerce to missing. -/
def toNumOpt : Cell → Option ℚ
  | .num q => some q
  | .nanV => none
  | .na => none
  | .str s => parseSignedDec (pyStrip s.data)

/-- df_conf (lines 498-507 and 554-563): valid rows restricted to those
where BOTH confidence columns coerce to a number; built by
`dropna(subset=['audio_confidence', 'lyrics_confidence'])` after coercion. -/
def confRows (corpus : List PredRow) : List PredRow :=
  (statsValidRows corpus).filter
    (fun r => (toNumOpt r.audioConf).isSome && (toNumOpt r.lyricsConf).isSome)

/-- The audio confidence of a df_conf row after the clip to [0,1]
(lines 506 and 562). -/
def aConfClip (r : PredRow) : ℚ := clipQ 0 1 ((toNumOpt r.audioConf).getD 0)

/-- The lyrics confidence of a df_conf row after the clip to [0,1]. -/
def lConfClip (r : PredRow) : ℚ := clipQ 0 1 ((toNumOpt r.lyricsConf).getD 0)

/-- Audio low-confidence percentage for one mood (lines 510-521):
share of df_conf rows with that audio mood whose confidence is below
AUDIO_LOW_CONF_THRESHOLD = 0.35, sanitized, zero when the mood is absent. -/
def audioLowPct (corpus : List PredRow) (m : String) : ℚ :=
  let sub := (confRows corpus).filter (fun r => canonCell r.audioPred == m)
  if 0 < sub.length then
    sanitizePct ((sub.countP (fun r => aConfClip r < 35/100) : ℚ) / (sub.length : ℚ) * 100)
  else 0

/-- Lyrics low-confidence percentage for one mood (lines 524-534):
threshold LYRICS_LOW_CONF_THRESHOLD = 0.6. -/
def lyricsLowPct (corpus : List PredRow) (m : String) : ℚ :=
  let sub := (confRows corpus).filter (fun r => canonCell r.lyricsPred == m)
  if 0 < sub.length then
    sanitizePct ((sub.countP (fun r => lConfClip r < 6/10) : ℚ) / (sub.length : ℚ) * 100)
  else 0

/-- The bin index of pd.cut with bins [0, 0.2, 0.4, 0.6, 0.8, 1.01] and
right=False (lines 567-573); clipped values land in bin 4 from 0.8 up. -/
def binIdx (q : ℚ) : ℕ :=
  if q < 1/5 then 0 else if q < 2/5 then 1 else if q < 3/5 then 2
  else if q < 4/5 then 3 else 4

/-- Audio confidence histogram count for one bin (lines 572-584). -/
def audioBinCount (corpus : List PredRow) (i : ℕ) : ℕ :=
  (confRows corpus).countP (fun r => binIdx (aConfClip r) == i)

/-- Lyrics confidence histogram count for one bin. -/
def lyricsBinCount (corpus : List PredRow) (i : ℕ) : ℕ :=
  (confRows corpus).countP (fun r => binIdx (lConfClip r) == i)

/- ===================== auxiliary definitions for the theorems ===================== -/

/-- Fold the optional best candidate into an accumulator the way the
selection loop does; used to characterize `selectBest`. -/
def bestUpdate (acc : Option String × ℚ) : Option Candidate → Option String × ℚ
  | none => acc
  | some m => if acc.2 < m.cvMean then (some m.name, m.cvMean) else acc

/-- A corrupted probability row: one NaN among ordinary probabilities. -/
def probaCorrupt : List FVal :=
  [FVal.nanV, FVal.finite (1/2), FVal.finite (3/10), FVal.finite (1/5)]

/-- The probability row of spec example 3: [0.1, 0.1, 0.1, 0.7]. -/
def probaExample : List FVal :=
  [FVal.finite (1/10), FVal.finite (1/10), FVal.finite (1/10), FVal.finite (7/10)]

/-- A small already-canonical frame used to witness the normalizer
fixed-point theorem. -/
def canonicalFrameW : DataFrame :=
  [("loudness", [Cell.num (-5), Cell.nanV]),
   ("tempo", [Cell.num 120, Cell.num 98]),
   ("mood", [Cell.str "happy", Cell.str "sad"])]

/-- A prediction row with both confidences numeric. -/
def rowBothConf : PredRow :=
  { audioPred := Cell.str "happy", lyricsPred := Cell.str "chill",
    audioConf := Cell.num (9/10), lyricsConf := Cell.num (1/2) }

/-- A prediction row whose lyrics confidence is missing. -/
def rowNoLyrConf : PredRow :=
  { audioPred := Cell.str "happy", lyricsPred := Cell.str "happy",
    audioConf := Cell.num (9/10), lyricsConf := Cell.na }

/-- A prediction row whose audio confidence is non-numeric text. -/
def rowNoAudConf : PredRow :=
  { audioPred := Cell.str "sad", lyricsPred := Cell.str "sad",
    audioConf := Cell.str "oops", lyricsConf := Cell.num (1/2) }

/- ===================== theorems ===================== -/

/-- Claim C7: for every lyrics input that is None, NaN, or empty after
stripping whitespace, classify_lyrics returns exactly the pair
("chill", 0.1); the call is total and never raises (the embedding is a
total function). -/
theorem claim_C7_empty_lyrics_default (vader : String → ℚ) (inp : Lyr)
    (h : inp = Lyr.missing ∨ inp = Lyr.nanVal ∨
         ∃ s, inp = Lyr.text s ∧ strTrim s = "") :
    classifyLyrics vader inp = ("chill", 1/10) := by
  rcases h with rfl | rfl | ⟨s, rfl, hs⟩
  · rfl
  · rfl
  · simp [classifyLyrics, lyrIsEmpty, hs]

/-- Witness for C7 at the whitespace-only input " ". -/
theorem claim_C7_empty_lyrics_default_witness :
    classifyLyrics (fun _ => 0) (Lyr.text " ") = ("chill", 1/10) :=
  claim_C7_empty_lyrics_default (fun _ => 0) (Lyr.text " ")
    (Or.inr (Or.inr ⟨" ", rfl, by decide⟩))

/-- Counterexample to claim C2 as stated: the endpoint yields
`agree = False` when the audio prediction is missing while the lyrics
prediction exists (the claim allows False only when both exist), and it
compares mood strings without lowercase/trim canonicalization, so
"Happy" versus "happy" also yields False where the claim requires True. -/
theorem claim_C2_counterexample :
    predictAgree none (some { mood := "happy", confidence := 1/2, lowConfidence := false })
      = some false ∧
    predictAgree
      (some { mood := "Happy", confidence := 1, lowConfidence := false })
      (some { mood := "happy", confidence := 1, lowConfidence := false })
      = some false := by
  constructor <;> rfl

/-- Claim C2 as amended: `agree` is True iff both predictions exist and
their mood strings are equal under raw string equality (the classifiers
only emit canonical lowercase moods, on which raw equality coincides with
canonicalized equality); False iff the lyrics prediction exists and either
the audio prediction is missing or the moods differ; and None exactly when
the lyrics prediction is unavailable. -/
theorem claim_C2_agree_amended (a l : Option ModelResult) :
    (predictAgree a l = some true ↔
      ∃ ar lr, a = some ar ∧ l = some lr ∧ ar.mood = lr.mood) ∧
    (predictAgree a l = some false ↔
      ∃ lr, l = some lr ∧
        (a = none ∨ ∃ ar, a = some ar ∧ ar.mood ≠ lr.mood)) ∧
    (predictAgree a l = none ↔ l = none) := by
  rcases a with _ | ar <;> rcases l with _ | lr <;>
    simp [predictAgree, beq_iff_eq]

/-- Witness for C2 amended: equal canonical moods give True. -/
theorem claim_C2_agree_amended_witness :
    predictAgree
      (some { mood := "happy", confidence := 9/10, lowConfidence := false })
      (some { mood := "happy", confidence := 8/10, lowConfidence := true })
      = some true :=
  (claim_C2_agree_amended _ _).1.mpr ⟨_, _, rfl, rfl, rfl⟩

/-- The selection loop computes the leftmost-maximum update of its
accumulator: folding `selectStep` equals applying `firstMaxCand`. -/
theorem selectLoop_eq (cs : List Candidate) :
    ∀ (bn : Option String) (bcv : ℚ),
      cs.foldl selectStep (bn, bcv) = bestUpdate (bn, bcv) (firstMaxCand cs) := by
  induction cs with
  | nil => intro bn bcv; rfl
  | cons c rest ih =>
    intro bn bcv
    have hstep : List.foldl selectStep (bn, bcv) (c :: rest)
        = List.foldl selectStep (selectStep (bn, bcv) c) rest := rfl
    rcases hr : firstMaxCand rest with _ | m
    · by_cases hc : bcv < c.cvMean
      · rw [hstep]
        simp only [selectStep, hc, if_true]
        rw [ih]
        simp [firstMaxCand, hr, bestUpdate, hc]
      · rw [hstep]
        simp only [selectStep, hc, if_false]
        rw [ih]
        simp [firstMaxCand, hr, bestUpdate, hc]
    · rw [hstep]
      by_cases hc : bcv < c.cvMean
      · simp only [selectStep, hc, if_true]
        rw [ih, hr]
        simp only [firstMaxCand, hr, bestUpdate]
        by_cases hm : m.cvMean > c.cvMean
        · simp only [hm, if_true]
          have : c.cvMean < m.cvMean := hm
          simp [bestUpdate, this, hc.trans this]
        · simp only [hm, if_false]
          have : ¬ c.cvMean < m.cvMean := hm
          simp [bestUpdate, this, hc]
      · simp only [selectStep, hc, if_false]
        rw [ih, hr]
        simp only [firstMaxCand, hr, bestUpdate]
        by_cases hm : m.cvMean > c.cvMean
        · simp [hm]
        · have hmb : ¬ bcv < m.cvMean := by
            intro hlt
            exact hc (lt_of_lt_of_le hlt (le_of_not_lt hm))
          simp [hm, hmb, hc]

/-- On a non-empty candidate list the leftmost-maximum search never fails. -/
theorem firstMax_ne_none (c : Candidate) (rest : List Candidate) :
    firstMaxCand (c :: rest) ≠ none := by
  cases hr : firstMaxCand rest with
  | none => simp [firstMaxCand, hr]
  | some m =>
    simp only [firstMaxCand, hr]
    by_cases hgt : m.cvMean > c.cvMean <;> simp [hgt]

/-- `firstMaxCand` returns the leftmost candidate attaining the maximal CV
mean: the list splits around it, everything is bounded by it, and every
earlier candidate is strictly below it. -/
theorem firstMax_spec (cs : List Candidate) (h : cs ≠ []) :
    ∃ pre m post, firstMaxCand cs = some m ∧ cs = pre ++ m :: post ∧
      (∀ c ∈ cs, c.cvMean ≤ m.cvMean) ∧ (∀ c ∈ pre, c.cvMean < m.cvMean) := by
  induction cs with
  | nil => exact absurd rfl h
  | cons c rest ih =>
    rcases hr : firstMaxCand rest with _ | m
    · have hrest : rest = [] := by
        cases rest with
        | nil => rfl
        | cons x xs => exact absurd hr (firstMax_ne_none x xs)
      subst hrest
      refine ⟨[], c, [], ?_, rfl, ?_, ?_⟩
      · simp [firstMaxCand]
      · intro x hx
        rcases List.mem_singleton.mp hx with rfl
        exact le_refl _
      · intro x hx; exact absurd hx (List.not_mem_nil x)
    · have hne : rest ≠ [] := by
        intro hrest; rw [hrest] at hr; exact Option.noConfusion hr
      obtain ⟨pre, m2, post, hm2, hsplit, hbound, hpre⟩ := ih hne
      have hm2m : m = m2 := Option.some.inj (hr.symm.trans hm2)
      subst hm2m
      by_cases hgt : m.cvMean > c.cvMean
      · refine ⟨c :: pre, m, post, ?_, ?_, ?_, ?_⟩
        · simp [firstMaxCand, hr, hgt]
        · rw [List.cons_append, hsplit]
        · intro x hx
          rcases List.mem_cons.mp hx with rfl | hx2
          · exact le_of_lt hgt
          · exact hbound x hx2
        · intro x hx
          rcases List.mem_cons.mp hx with rfl | hx2
          · exact hgt
          · exact hpre x hx2
      · refine ⟨[], c, rest, ?_, rfl, ?_, ?_⟩
        · simp [firstMaxCand, hr, hgt]
        · intro x hx
          rcases List.mem_cons.mp hx with rfl | hx2
          · exact le_refl _
          · exact le_trans (hbound x hx2) (le_of_not_lt hgt)
        · intro x hx; exact absurd hx (List.not_mem_nil x)

/-- Folding the selection loop over candidates with rewritten test
accuracies is identical to folding it over the originals. -/
theorem selectLoop_testAcc_free (f : Candidate → ℚ) (cs : List Candidate) :
    ∀ acc : Option String × ℚ,
      (cs.map (fun c => { c with testAcc := f c })).foldl selectStep acc
        = cs.foldl selectStep acc := by
  induction cs with
  | nil => intro acc; rfl
  | cons c rest ih =>
    intro acc
    have hstep : selectStep acc { c with testAcc := f c } = selectStep acc c := rfl
    simp only [List.map_cons, List.foldl_cons, hstep]
    exact ih _

/-- Claim C4: training evaluates the three candidate families (registered
in order LogReg, KNN, RF) by 5-fold stratified cross-validation and picks
the candidate with the highest mean CV accuracy; equal means keep the
first-registered candidate (the loop replaces only on a strict increase),
and the held-out test accuracy never influences the selection. -/
theorem claim_C4_model_selection :
    trainCV.nSplits = 5 ∧ trainCV.stratified = true ∧
    candidateNames = ["LogReg", "KNN", "RF"] ∧
    (∀ cs : List Candidate, cs ≠ [] → (∀ c ∈ cs, 0 ≤ c.cvMean) →
      ∃ pre m post, cs = pre ++ m :: post ∧
        (selectBest cs).1 = some m.name ∧ (selectBest cs).2 = m.cvMean ∧
        (∀ c ∈ cs, c.cvMean ≤ m.cvMean) ∧
        (∀ c ∈ pre, c.cvMean < m.cvMean)) ∧
    (∀ (cs : List Candidate) (f : Candidate → ℚ),
      selectBest (cs.map (fun c => { c with testAcc := f c })) = selectBest cs) := by
  refine ⟨rfl, rfl, rfl, ?_, ?_⟩
  · intro cs hne hnn
    obtain ⟨pre, m, post, hm, hsplit, hbound, hpre⟩ := firstMax_spec cs hne
    have hmm : m ∈ cs := by rw [hsplit]; exact List.mem_append_right pre (List.mem_cons_self m post)
    have hm0 : (-1 : ℚ) < m.cvMean := lt_of_lt_of_le (by norm_num) (hnn m hmm)
    have hsel : selectBest cs = (some m.name, m.cvMean) := by
      unfold selectBest
      rw [selectLoop_eq cs none (-1), hm]
      simp [bestUpdate, hm0]
    exact ⟨pre, m, post, hsplit, by rw [hsel], by rw [hsel], hbound, hpre⟩
  · intro cs f
    unfold selectBest
    exact selectLoop_testAcc_free f cs _

/-- Witness for C4 at a concrete tied leaderboard: LogReg and KNN share the
best CV mean 0.8, so the first-registered LogReg wins. -/
theorem claim_C4_model_selection_witness :
    ([⟨"LogReg", 4/5, 1/2⟩, ⟨"KNN", 4/5, 9/10⟩, ⟨"RF", 7/10, 1⟩] : List Candidate) ≠ [] ∧
    (∀ c ∈ ([⟨"LogReg", 4/5, 1/2⟩, ⟨"KNN", 4/5, 9/10⟩, ⟨"RF", 7/10, 1⟩] : List Candidate),
      0 ≤ c.cvMean) ∧
    (∃ pre m post,
      ([⟨"LogReg", 4/5, 1/2⟩, ⟨"KNN", 4/5, 9/10⟩, ⟨"RF", 7/10, 1⟩] : List Candidate)
        = pre ++ m :: post ∧
      (selectBest [⟨"LogReg", 4/5, 1/2⟩, ⟨"KNN", 4/5, 9/10⟩, ⟨"RF", 7/10, 1⟩]).1
        = some m.name ∧
      (selectBest [⟨"LogReg", 4/5, 1/2⟩, ⟨"KNN", 4/5, 9/10⟩, ⟨"RF", 7/10, 1⟩]).2
        = m.cvMean ∧
      (∀ c ∈ ([⟨"LogReg", 4/5, 1/2⟩, ⟨"KNN", 4/5, 9/10⟩, ⟨"RF", 7/10, 1⟩] : List Candidate),
        c.cvMean ≤ m.cvMean) ∧
      (∀ c ∈ pre, c.cvMean < m.cvMean)) :=
  ⟨List.cons_ne_nil _ _,
   by intro c hc
      simp only [List.mem_cons, List.not_mem_nil, or_false] at hc
      rcases hc with rfl | rfl | rfl <;> norm_num,
   claim_C4_model_selection.2.2.2.1 _ (List.cons_ne_nil _ _)
     (by intro c hc
         simp only [List.mem_cons, List.not_mem_nil, or_false] at hc
         rcases hc with rfl | rfl | rfl <;> norm_num)⟩

/-- The fold maximum is the seed or one of the list elements. -/
theorem npMaxFrom_mem (l : List FVal) :
    ∀ a : FVal, npMaxFrom a l = a ∨ npMaxFrom a l ∈ l := by
  induction l with
  | nil => intro a; exact Or.inl rfl
  | cons x xs ih =>
    intro a
    have hx : npMaxFrom a (x :: xs) = npMaxFrom (npMax2 a x) xs := rfl
    rcases ih (npMax2 a x) with h | h
    · rw [hx, h]
      unfold npMax2
      by_cases hlt : npLtB a x = true
      · simp only [hlt, if_true]
        exact Or.inr (List.mem_cons_self x xs)
      · simp only [hlt, if_false]
        exact Or.inl rfl
    · rw [hx]
      exact Or.inr (List.mem_cons_of_mem x h)

/-- The top-1 value of a non-empty row is an element of the row. -/
theorem npMaxL_mem (l : List FVal) (h : l ≠ []) : npMaxL l ∈ l := by
  cases l with
  | nil => exact absurd rfl h
  | cons x xs =>
    rcases npMaxFrom_mem xs x with h2 | h2
    · rw [npMaxL, h2]; exact List.mem_cons_self x xs
    · rw [npMaxL]; exact List.mem_cons_of_mem x h2

/-- Over an all-finite row the fold maximum is finite and bounds the seed
and every finite element. -/
theorem npMaxFrom_finite_bound (xs : List FVal) :
    ∀ a : ℚ, (∀ v ∈ xs, ∃ q, v = FVal.finite q) →
      ∃ M, npMaxFrom (FVal.finite a) xs = FVal.finite M ∧ a ≤ M ∧
        ∀ q, FVal.finite q ∈ xs → q ≤ M := by
  induction xs with
  | nil =>
    intro a _
    exact ⟨a, rfl, le_refl a, fun q hq => absurd hq (List.not_mem_nil _)⟩
  | cons x xs ih =>
    intro a hx
    obtain ⟨b, rfl⟩ := hx x (List.mem_cons_self x xs)
    have hstep : npMax2 (FVal.finite a) (FVal.finite b) = FVal.finite (max a b) := by
      unfold npMax2 npLtB
      by_cases hab : a < b
      · simp [hab, max_eq_right (le_of_lt hab)]
      · simp [hab, max_eq_left (le_of_not_lt hab)]
    obtain ⟨M, hM, hle, hall⟩ :=
      ih (max a b) (fun v hv => hx v (List.mem_cons_of_mem _ hv))
    refine ⟨M, ?_, le_trans (le_max_left a b) hle, ?_⟩
    · show npMaxFrom (npMax2 (FVal.finite a) (FVal.finite b)) xs = FVal.finite M
      rw [hstep]; exact hM
    · intro q hq
      rcases List.mem_cons.mp hq with heq | hq2
      · have : q = b := by injection heq
        rw [this]; exact le_trans (le_max_right a b) hle
      · exact hall q hq2

/-- The clip-then-sanitize output always lies in [0, 1]. -/
theorem sanitized01 (v : FVal) :
    0 ≤ nanToNum (clipFV 0 1 v) ∧ nanToNum (clipFV 0 1 v) ≤ 1 := by
  cases v with
  | finite q =>
    exact ⟨le_min (by norm_num) (le_max_left 0 q), min_le_left 1 _⟩
  | nanV => exact ⟨le_refl 0, by show (0:ℚ) ≤ 1; norm_num⟩
  | pinf => exact ⟨by show (0:ℚ) ≤ 1; norm_num, le_refl 1⟩
  | ninf => exact ⟨le_refl 0, by show (0:ℚ) ≤ 1; norm_num⟩

/-- Counterexample to claim C3 as stated: on the corrupted probability row
[NaN, 0.5, 0.3, 0.2] the NaN sorts last, so it becomes the top-1 value and
is sanitized to confidence 0, while the runner-up keeps 0.5 - the surfaced
`confidence >= secondConfidence` and `margin = confidence - secondConfidence`
invariants both fail. -/
theorem claim_C3_counterexample :
    audioConfidence probaCorrupt = 0 ∧
    audioSecond probaCorrupt = 1/2 ∧
    audioMargin probaCorrupt = 0 ∧
    ¬ (audioSecond probaCorrupt ≤ audioConfidence probaCorrupt) ∧
    audioMargin probaCorrupt ≠ audioConfidence probaCorrupt - audioSecond probaCorrupt := by
  norm_num [audioConfidence, audioSecond, audioMargin, topProb, secondProb,
    nanToNum, clipFV, fvSub, npMaxL, npMaxFrom, npMax2, npLtB,
    probaCorrupt, List.erase, List.foldl]

/-- Claim C3 as amended: the surfaced confidence, runner-up confidence and
margin always lie in [0, 1] with NaN/Infinity replaced by finite defaults;
and on every row that is a genuine probability vector (at least two
entries, all finite in [0, 1]) the ordering invariant holds:
confidence >= secondConfidence and margin = confidence - secondConfidence.
On corrupted rows containing NaN the ordering invariant can fail (see the
counterexample), only boundedness survives. -/
theorem claim_C3_confidence_invariant_amended :
    (∀ l : List FVal,
      0 ≤ audioConfidence l ∧ audioConfidence l ≤ 1 ∧
      0 ≤ audioSecond l ∧ audioSecond l ≤ 1 ∧
      0 ≤ audioMargin l ∧ audioMargin l ≤ 1) ∧
    (∀ l : List FVal, 2 ≤ l.length →
      (∀ v ∈ l, ∃ q, v = FVal.finite q ∧ 0 ≤ q ∧ q ≤ 1) →
      audioSecond l ≤ audioConfidence l ∧
      audioMargin l = audioConfidence l - audioSecond l) := by
  constructor
  · intro l
    obtain ⟨h1, h2⟩ := sanitized01 (topProb l)
    obtain ⟨h3, h4⟩ := sanitized01 (secondProb l)
    obtain ⟨h5, h6⟩ := sanitized01 (fvSub (topProb l) (secondProb l))
    exact ⟨h1, h2, h3, h4, h5, h6⟩
  · intro l hlen hf
    have hne : l ≠ [] := by
      intro hnil; rw [hnil] at hlen; exact absurd hlen (by norm_num)
    -- the top-1 value is finite and bounds every finite element
    obtain ⟨q0, hq0, _, _⟩ := hf (npMaxL l) (npMaxL_mem l hne)
    obtain ⟨M, hM, hM0, hM1⟩ :
        ∃ M, npMaxL l = FVal.finite M ∧ 0 ≤ M ∧ M ≤ 1 := by
      obtain ⟨q, hq, hq01a, hq01b⟩ := hf (npMaxL l) (npMaxL_mem l hne)
      exact ⟨q, hq, hq01a, hq01b⟩
    have hMbound : ∀ q, FVal.finite q ∈ l → q ≤ M := by
      cases l with
      | nil => exact absurd rfl hne
      | cons x xs =>
        obtain ⟨a, ha, _, _⟩ := hf x (List.mem_cons_self x xs)
        subst ha
        obtain ⟨M2, hM2, haM2, hall⟩ := npMaxFrom_finite_bound xs a
          (fun v hv => (hf v (List.mem_cons_of_mem _ hv)).imp
            (fun q hq => hq.1))
        have hMM2 : M = M2 := by
          have : npMaxL (FVal.finite a :: xs) = FVal.finite M2 := hM2
          rw [hM] at this
          injection this
        subst hMM2
        intro q hq
        rcases List.mem_cons.mp hq with heq | hq2
        · have : q = a := by injection heq
          rw [this]; exact haM2
        · exact hall q hq2
    -- the erased list is non-empty and all-finite in [0,1]
    have hmem : npMaxL l ∈ l := npMaxL_mem l hne
    have herase_len : (l.erase (npMaxL l)).length = l.length - 1 :=
      List.length_erase_of_mem hmem
    have herase_ne : l.erase (npMaxL l) ≠ [] := by
      intro hnil
      have := herase_len
      rw [hnil] at this
      simp at this
      omega
    obtain ⟨m, hm, hm0, hm1⟩ :=
      hf (npMaxL (l.erase (npMaxL l)))
        (List.mem_of_mem_erase (npMaxL_mem _ herase_ne))
    have hmM : m ≤ M := by
      apply hMbound
      have : npMaxL (l.erase (npMaxL l)) ∈ l.erase (npMaxL l) :=
        npMaxL_mem _ herase_ne
      rw [hm] at this
      exact List.mem_of_mem_erase this
    -- evaluate the three surfaced quantities
    have hconf : audioConfidence l = M := by
      unfold audioConfidence topProb
      rw [hM]
      show nanToNum (FVal.finite (min 1 (max 0 M))) = M
      rw [max_eq_right hM0, min_eq_right hM1]
      rfl
    have hsec : audioSecond l = m := by
      unfold audioSecond secondProb
      rw [hm]
      show nanToNum (FVal.finite (min 1 (max 0 m))) = m
      rw [max_eq_right hm0, min_eq_right hm1]
      rfl
    have hmarg : audioMargin l = M - m := by
      unfold audioMargin topProb secondProb
      rw [hm, hM]
      show nanToNum (clipFV 0 1 (FVal.finite (M - m))) = M - m
      have h1 : (0 : ℚ) ≤ M - m := by linarith
      have h2 : M - m ≤ 1 := by linarith
      show nanToNum (FVal.finite (min 1 (max 0 (M - m)))) = M - m
      rw [max_eq_right h1, min_eq_right h2]
      rfl
    rw [hconf, hsec, hmarg]
    exact ⟨hmM, rfl⟩

/-- Witness for C3 amended at the probability row of spec example 3:
[0.1, 0.1, 0.1, 0.7] gives confidence 0.7, runner-up 0.1, margin 0.6. -/
theorem claim_C3_confidence_invariant_amended_witness :
    2 ≤ probaExample.length ∧
    audioConfidence probaExample = 7/10 ∧
    audioSecond probaExample = 1/10 ∧
    audioMargin probaExample = 6/10 ∧
    audioSecond probaExample ≤ audioConfidence probaExample ∧
    audioMargin probaExample = audioConfidence probaExample - audioSecond probaExample := by
  have happ := claim_C3_confidence_invariant_amended.2 probaExample
    (by norm_num [probaExample])
    (by
      intro v hv
      simp only [probaExample, List.mem_cons, List.not_mem_nil, or_false] at hv
      rcases hv with rfl | rfl | rfl | rfl
      · exact ⟨1/10, rfl, by norm_num, by norm_num⟩
      · exact ⟨1/10, rfl, by norm_num, by norm_num⟩
      · exact ⟨1/10, rfl, by norm_num, by norm_num⟩
      · exact ⟨7/10, rfl, by norm_num, by norm_num⟩)
  refine ⟨by norm_num [probaExample], ?_, ?_, ?_, happ.1, happ.2⟩ <;>
    norm_num [audioConfidence, audioSecond, audioMargin, topProb, secondProb,
      nanToNum, clipFV, fvSub, npMaxL, npMaxFrom, npMax2, npLtB,
      probaExample, List.erase_cons, beq_iff_eq, List.foldl]

/-- A d-class character is dropped by the numeric filter. -/
theorem dchar_not_keep (c : Char) (h : isDChar c = true) :
    keepChar (mapMinusChar c) = false := by
  simp only [isDChar, Bool.or_eq_true, beq_iff_eq] at h
  rcases h with rfl | rfl <;> rfl

/-- A b-class character is dropped by the numeric filter. -/
theorem bchar_not_keep (c : Char) (h : isBChar c = true) :
    keepChar (mapMinusChar c) = false := by
  simp only [isBChar, Bool.or_eq_true, beq_iff_eq] at h
  rcases h with rfl | rfl <;> rfl

/-- A whitespace character is dropped by the numeric filter. -/
theorem wschar_not_keep (c : Char) (h : isWsChar c = true) :
    keepChar (mapMinusChar c) = false := by
  simp only [isWsChar, Bool.or_eq_true, beq_iff_eq] at h
  rcases h with ((((rfl | rfl) | rfl) | rfl) | rfl) | rfl <;> rfl

/-- A d-class character is dropped by the numeric filter directly. -/
theorem dchar_not_keep_raw (c : Char) (h : isDChar c = true) :
    keepChar c = false := by
  simp only [isDChar, Bool.or_eq_true, beq_iff_eq] at h
  rcases h with rfl | rfl <;> rfl

/-- A b-class character is dropped by the numeric filter directly. -/
theorem bchar_not_keep_raw (c : Char) (h : isBChar c = true) :
    keepChar c = false := by
  simp only [isBChar, Bool.or_eq_true, beq_iff_eq] at h
  rcases h with rfl | rfl <;> rfl

/-- Removing dB pairs does not change the numerically filtered characters. -/
theorem filter_keep_removeDb (l : List Char) :
    (removeDb l).filter keepChar = l.filter keepChar := by
  induction l using removeDb.induct with
  | case1 => rfl
  | case2 c => rfl
  | case3 c1 c2 rest hdb ih =>
    rw [removeDb, if_pos hdb, ih]
    have h1 : keepChar c1 = false :=
      dchar_not_keep_raw c1 (Bool.and_elim_left hdb)
    have h2 : keepChar c2 = false :=
      bchar_not_keep_raw c2 (Bool.and_elim_right hdb)
    simp [List.filter_cons, h1, h2]
  | case4 c1 c2 rest hdb ih =>
    rw [removeDb, if_neg hdb]
    simp only [List.filter_cons, ih]

/-- Dropping leading whitespace does not change the numerically filtered
characters. -/
theorem filter_keep_dropWs (l : List Char) :
    ((l.dropWhile isWsChar).map mapMinusChar).filter keepChar
      = (l.map mapMinusChar).filter keepChar := by
  induction l with
  | nil => rfl
  | cons c t ih =>
    rcases hws : isWsChar c
    · rw [List.dropWhile_cons_of_neg (by simp [hws])]
    · rw [List.dropWhile_cons_of_pos (by simp [hws])]
      rw [ih]
      simp only [List.map_cons, List.filter_cons, wschar_not_keep c hws,
        Bool.false_eq_true, if_false]

/-- Python strip does not change the numerically filtered characters. -/
theorem filter_keep_pyStrip (l : List Char) :
    ((pyStrip l).map mapMinusChar).filter keepChar
      = (l.map mapMinusChar).filter keepChar := by
  unfold pyStrip
  rw [List.map_reverse, List.filter_reverse, filter_keep_dropWs,
    List.map_reverse, List.filter_reverse, List.reverse_reverse,
    filter_keep_dropWs]

/-- Stripping a trailing dB suffix does not change the numerically filtered
characters. -/
theorem filter_keep_stripDbSuffix (l : List Char) :
    ((stripDbSuffix l).map mapMinusChar).filter keepChar
      = (l.map mapMinusChar).filter keepChar := by
  unfold stripDbSuffix
  rcases hrev : l.reverse with _ | ⟨b, rest1⟩
  · rfl
  · rcases rest1 with _ | ⟨d, rest⟩
    · rfl
    · rcases hdb : isDChar d && isBChar b
      · simp only [hdb, Bool.false_eq_true, if_false]
      · simp only [hdb, if_true]
        have hl : l = (b :: d :: rest).reverse := by
          rw [← hrev, List.reverse_reverse]
        rw [hl]
        simp only [List.reverse_cons]
        have h1 : keepChar (mapMinusChar d) = false :=
          dchar_not_keep d (Bool.and_elim_left hdb)
        have h2 : keepChar (mapMinusChar b) = false :=
          bchar_not_keep b (Bool.and_elim_right hdb)
        simp [List.map_append, List.filter_append, h1, h2]

/-- Claim C8: clean_loudness maps any raw loudness string by the
strip-dB-suffix / normalize-minus / discard-non-numeric / parse / clamp
pipeline of the spec (the two computations agree on every string, because
every character either pipeline removes is already discarded by the
non-numeric filter); in particular "-5.2 dB" parses to -5.2, "200dB" clamps
to 0 rather than being rejected, and a non-parseable value becomes a
missing marker, not zero. -/
theorem claim_C8_loudness_cleaning :
    (∀ s : String, cleanLoudness s = specCleanLoudness s) ∧
    cleanLoudness "-5.2 dB" = some (-(26/5)) ∧
    cleanLoudness "200dB" = some 0 ∧
    cleanLoudness "abc" = none := by
  refine ⟨?_, ?_, ?_, ?_⟩
  · intro s
    unfold cleanLoudness cleanLoudnessChars specCleanLoudness
    rw [filter_keep_removeDb, filter_keep_pyStrip, filter_keep_stripDbSuffix]
  · have hfilter :
        (removeDb ((pyStrip ("-5.2 dB".data)).map mapMinusChar)).filter keepChar
          = ['-', '5', '.', '2'] := by decide
    unfold cleanLoudness cleanLoudnessChars
    rw [hfilter]
    have hp : parseSignedDec ['-', '5', '.', '2']
        = some (-(((5:ℕ) : ℚ) + ((2:ℕ) : ℚ) / (10:ℚ) ^ 1)) := rfl
    rw [hp]
    simp only [Option.map_some']
    norm_num [clipQ, min_def, max_def]
  · have hfilter :
        (removeDb ((pyStrip ("200dB".data)).map mapMinusChar)).filter keepChar
          = ['2', '0', '0'] := by decide
    unfold cleanLoudness cleanLoudnessChars
    rw [hfilter]
    have hp : parseSignedDec ['2', '0', '0'] = some (((200:ℕ) : ℚ)) := rfl
    rw [hp]
    simp only [Option.map_some']
    norm_num [clipQ, min_def, max_def]
  · decide

/-- No canonical column name is an alias-table key. -/
theorem canonical_not_renamed :
    ∀ n ∈ canonicalCols, List.lookup n renamer = none := by decide

/-- No canonical column name is a leak column. -/
theorem canonical_not_leak : ∀ n ∈ canonicalCols, isLeakCol n = false := by
  decide

/-- Claim C9: normalize_features is a no-op on already-canonical frames -
every column name canonical (so no alias fires and nothing is dropped) and
a loudness column with at least one non-missing value (so no
reconstruction fires): canonical frames are fixed points. -/
theorem claim_C9_normalizer_idempotent (df : DataFrame)
    (hnames : ∀ nc ∈ df, nc.1 ∈ canonicalCols)
    (hloud : ∃ col, List.lookup "loudness" df = some col ∧ 0 < notnaCount col) :
    normalizeFeatures df = df := by
  obtain ⟨col, hcol, hcnt⟩ := hloud
  have hrename : renameStep df = df := by
    unfold renameStep
    have hid : ∀ nc ∈ df,
        (match List.lookup nc.1 renamer with
         | some v => (v, nc.2)
         | none => nc) = nc := by
      intro nc hnc
      rw [canonical_not_renamed nc.1 (hnames nc hnc)]
    calc df.map _ = df.map id := List.map_congr_left hid
    _ = df := List.map_id df
  have hneed : needLoudness df = false := by
    unfold needLoudness findCol
    rw [hcol]
    simp only [beq_eq_false_iff_ne, ne_eq]
    omega
  have hloudstep : loudnessStep df = df := by
    unfold loudnessStep
    rw [hneed]
    simp
  have hdrop : dropStep df = df := by
    unfold dropStep
    rw [List.filter_eq_self]
    intro nc hnc
    rw [canonical_not_leak nc.1 (hnames nc hnc)]
    rfl
  unfold normalizeFeatures
  rw [hrename, hloudstep, hdrop]

/-- Witness for C9 at a small concrete canonical frame. -/
theorem claim_C9_normalizer_idempotent_witness :
    normalizeFeatures canonicalFrameW = canonicalFrameW :=
  claim_C9_normalizer_idempotent canonicalFrameW (by decide)
    ⟨[Cell.num (-5), Cell.nanV], by decide, by decide⟩

/-- The clamp to [0, 100] applied to every surfaced percentage. -/
theorem clamp100_mem (x : ℚ) :
    0 ≤ max 0 (min 100 x) ∧ max 0 (min 100 x) ≤ 100 :=
  ⟨le_max_left 0 _, max_le (by norm_num) (min_le_left 100 x)⟩

/-- The per-value sanitizer keeps its output in [0, 100]. -/
theorem sanitizePct_mem (x : ℚ) :
    0 ≤ sanitizePct x ∧ sanitizePct x ≤ 100 := by
  unfold sanitizePct
  split_ifs with h
  · exact ⟨h.1, h.2⟩
  · exact ⟨le_refl 0, by norm_num⟩

/-- The agreement percentage is already within [0, 100] after
sanitization. -/
theorem agreementPct_mem (corpus : List PredRow) :
    0 ≤ agreementPct corpus ∧ agreementPct corpus ≤ 100 := by
  unfold agreementPct
  split_ifs with h
  · exact sanitizePct_mem _
  · exact ⟨le_refl 0, by norm_num⟩

/-- Claim C5: every percentage surfaced by the statistics endpoint -
agreement, disagreement, the per-mood audio and lyrics distribution
percentages, and the per-mood audio and lyrics low-confidence rates -
lies in [0, 100] for every input corpus and every mood string, including
corpora whose rows carry NaN or non-numeric cells; out-of-range or
undefined intermediate values are forced to safe defaults instead of
raising (the embedding is a total function). -/
theorem claim_C5_percentages_bounded (corpus : List PredRow) (m : String) :
    0 ≤ agreePctOut corpus ∧ agreePctOut corpus ≤ 100 ∧
    0 ≤ disagreePctOut corpus ∧ disagreePctOut corpus ≤ 100 ∧
    0 ≤ distPctOut corpus PredRow.audioPred m ∧
    distPctOut corpus PredRow.audioPred m ≤ 100 ∧
    0 ≤ distPctOut corpus PredRow.lyricsPred m ∧
    distPctOut corpus PredRow.lyricsPred m ≤ 100 ∧
    0 ≤ audioLowPct corpus m ∧ audioLowPct corpus m ≤ 100 ∧
    0 ≤ lyricsLowPct corpus m ∧ lyricsLowPct corpus m ≤ 100 := by
  obtain ⟨ha1, ha2⟩ := clamp100_mem (agreementPct corpus)
  have hd : 0 ≤ disagreePctOut corpus ∧ disagreePctOut corpus ≤ 100 := by
    unfold disagreePctOut
    obtain ⟨hp1, hp2⟩ := agreementPct_mem corpus
    dsimp only
    split_ifs with h
    · exact ⟨h.1, h.2⟩
    · exact clamp100_mem _
  refine ⟨ha1, ha2, hd.1, hd.2, (clamp100_mem _).1, (clamp100_mem _).2,
    (clamp100_mem _).1, (clamp100_mem _).2, ?_, ?_, ?_, ?_⟩
  · unfold audioLowPct
    dsimp only
    split_ifs with h
    · exact (sanitizePct_mem _).1
    · exact le_refl 0
  · unfold audioLowPct
    dsimp only
    split_ifs with h
    · exact (sanitizePct_mem _).2
    · norm_num
  · unfold lyricsLowPct
    dsimp only
    split_ifs with h
    · exact (sanitizePct_mem _).1
    · exact le_refl 0
  · unfold lyricsLowPct
    dsimp only
    split_ifs with h
    · exact (sanitizePct_mem _).2
    · norm_num

/-- Every row admitted into df_valid has canonical moods in the four-mood
set on both sides. -/
theorem mem_statsValid (corpus : List PredRow) (r : PredRow)
    (h : r ∈ statsValidRows corpus) :
    canonCell r.audioPred ∈ validMoods ∧ canonCell r.lyricsPred ∈ validMoods := by
  unfold statsValidRows at h
  have hmem := List.of_mem_filter h
  simp only [Bool.and_eq_true, moodCellOk, decide_eq_true_eq] at hmem
  exact ⟨hmem.1.2, hmem.2.2⟩

/-- Counting rows by each of the four moods partitions a list whose rows
all map into the four-mood set. -/
theorem countP_mood_partition (l : List PredRow) (f : PredRow → String)
    (h : ∀ r ∈ l, f r ∈ validMoods) :
    l.countP (fun r => f r == "happy") + l.countP (fun r => f r == "chill")
      + l.countP (fun r => f r == "sad") + l.countP (fun r => f r == "hyped")
      = l.length := by
  induction l with
  | nil => rfl
  | cons r t ih =>
    have hr := h r (List.mem_cons_self r t)
    have ht := ih (fun x hx => h x (List.mem_cons_of_mem r hx))
    simp only [List.countP_cons, List.length_cons]
    have hone :
        (if (f r == "happy") = true then 1 else 0)
          + (if (f r == "chill") = true then 1 else 0)
          + (if (f r == "sad") = true then 1 else 0)
          + (if (f r == "hyped") = true then 1 else 0) = 1 := by
      simp only [validMoods, List.mem_cons, List.not_mem_nil, or_false] at hr
      rcases hr with h1 | h1 | h1 | h1 <;> simp [h1]
    omega

/-- A pair count is the lyrics count inside the audio-filtered sublist. -/
theorem pairCount_eq (corpus : List PredRow) (am lm : String) :
    pairCount corpus am lm =
      ((statsValidRows corpus).filter
        (fun r => canonCell r.audioPred == am)).countP
        (fun r => canonCell r.lyricsPred == lm) := by
  unfold pairCount
  rw [List.countP_filter]
  congr 1
  funext r
  rw [Bool.and_comm]

/-- The confusion rows are exactly the sixteen pair counts, zero-filled. -/
theorem confusion_cells (corpus : List PredRow) :
    confusionRows corpus = validMoods.map (fun am =>
      { audio := pyCapitalize am
        happy := pairCount corpus am "happy"
        chill := pairCount corpus am "chill"
        sad := pairCount corpus am "sad"
        hyped := pairCount corpus am "hyped" }) := by
  unfold confusionRows
  apply List.map_congr_left
  intro am _
  dsimp only
  by_cases hlen :
      0 < ((statsValidRows corpus).filter
        (fun r => canonCell r.audioPred == am)).length
  · rw [if_pos hlen]
    simp only [ConfRow.mk.injEq]
    exact ⟨trivial, (pairCount_eq corpus am "happy").symm,
      (pairCount_eq corpus am "chill").symm,
      (pairCount_eq corpus am "sad").symm,
      (pairCount_eq corpus am "hyped").symm⟩
  · rw [if_neg hlen]
    have hnil : (statsValidRows corpus).filter
        (fun r => canonCell r.audioPred == am) = [] :=
      List.length_eq_zero.mp (by omega)
    simp only [ConfRow.mk.injEq]
    refine ⟨trivial, ?_, ?_, ?_, ?_⟩ <;> rw [pairCount_eq, hnil] <;> rfl

/-- Claim C6: for every corpus the confusion matrix has one row per audio
mood (in order, capitalized), each cell equals the exact count of valid
rows with that audio/lyrics mood pair (hence zero-filled when a pair never
occurs), and the sixteen cells sum to the number of valid rows - rows
whose two mood values both normalize into the four-mood set. -/
theorem claim_C6_confusion_matrix (corpus : List PredRow) :
    (confusionRows corpus).length = 4 ∧
    (confusionRows corpus).map ConfRow.audio = ["Happy", "Chill", "Sad", "Hyped"] ∧
    confusionRows corpus = validMoods.map (fun am =>
      { audio := pyCapitalize am
        happy := pairCount corpus am "happy"
        chill := pairCount corpus am "chill"
        sad := pairCount corpus am "sad"
        hyped := pairCount corpus am "hyped" }) ∧
    confCellSum (confusionRows corpus) = totalValidCount corpus := by
  have hcells := confusion_cells corpus
  refine ⟨by rw [hcells]; rfl, by rw [hcells]; rfl, hcells, ?_⟩
  rw [hcells]
  have hrow : ∀ am : String,
      pairCount corpus am "happy" + pairCount corpus am "chill"
        + pairCount corpus am "sad" + pairCount corpus am "hyped"
        = (statsValidRows corpus).countP
            (fun r => canonCell r.audioPred == am) := by
    intro am
    rw [pairCount_eq, pairCount_eq, pairCount_eq, pairCount_eq]
    rw [countP_mood_partition _ (fun r => canonCell r.lyricsPred)
      (fun r hr => (mem_statsValid corpus r (List.mem_of_mem_filter hr)).2)]
    rw [← List.countP_eq_length_filter]
  have htotal :
      (statsValidRows corpus).countP (fun r => canonCell r.audioPred == "happy")
        + (statsValidRows corpus).countP (fun r => canonCell r.audioPred == "chill")
        + (statsValidRows corpus).countP (fun r => canonCell r.audioPred == "sad")
        + (statsValidRows corpus).countP (fun r => canonCell r.audioPred == "hyped")
        = (statsValidRows corpus).length :=
    countP_mood_partition (statsValidRows corpus)
      (fun r => canonCell r.audioPred)
      (fun r hr => (mem_statsValid corpus r hr).1)
  unfold confCellSum totalValidCount
  simp only [validMoods, List.map_cons, List.map_nil, List.sum_cons,
    List.sum_nil]
  rw [hrow "happy", hrow "chill", hrow "sad", hrow "hyped"]
  omega

/-- Appending a row with a non-coercing confidence on either side leaves
df_conf unchanged: the dropna over both confidence columns discards it. -/
theorem confRows_append_nonnumeric (corpus : List PredRow) (r : PredRow)
    (h : toNumOpt r.audioConf = none ∨ toNumOpt r.lyricsConf = none) :
    confRows (corpus ++ [r]) = confRows corpus := by
  unfold confRows statsValidRows
  rw [List.filter_append, List.filter_append]
  have hconf :
      (List.filter (fun r2 => moodCellOk r2.audioPred && moodCellOk r2.lyricsPred)
          [r]).filter
        (fun r2 => (toNumOpt r2.audioConf).isSome && (toNumOpt r2.lyricsConf).isSome)
        = [] := by
    rcases hm : moodCellOk r.audioPred && moodCellOk r.lyricsPred
    · simp [List.filter_cons, hm]
    · rcases h with h | h <;> simp [List.filter_cons, hm, h]
  rw [hconf, List.append_nil]

/-- Claim C10: the confidence histogram bins and the per-mood
low-confidence percentages of BOTH models are computed only over rows
where both confidence columns coerce to a number - a row whose lyrics
confidence is missing or non-numeric is also excluded from the audio
histogram and audio low-confidence rates, and vice versa: appending such
a row changes none of these statistics. -/
theorem claim_C10_conf_stats_joint (corpus : List PredRow) (r : PredRow)
    (i : ℕ) (m : String) :
    ((toNumOpt r.audioConf).isSome = true → toNumOpt r.lyricsConf = none →
      confRows (corpus ++ [r]) = confRows corpus ∧
      audioBinCount (corpus ++ [r]) i = audioBinCount corpus i ∧
      lyricsBinCount (corpus ++ [r]) i = lyricsBinCount corpus i ∧
      audioLowPct (corpus ++ [r]) m = audioLowPct corpus m ∧
      lyricsLowPct (corpus ++ [r]) m = lyricsLowPct corpus m) ∧
    (toNumOpt r.audioConf = none → (toNumOpt r.lyricsConf).isSome = true →
      confRows (corpus ++ [r]) = confRows corpus ∧
      audioBinCount (corpus ++ [r]) i = audioBinCount corpus i ∧
      lyricsBinCount (corpus ++ [r]) i = lyricsBinCount corpus i ∧
      audioLowPct (corpus ++ [r]) m = audioLowPct corpus m ∧
      lyricsLowPct (corpus ++ [r]) m = lyricsLowPct corpus m) := by
  have hstats : confRows (corpus ++ [r]) = confRows corpus →
      confRows (corpus ++ [r]) = confRows corpus ∧
      audioBinCount (corpus ++ [r]) i = audioBinCount corpus i ∧
      lyricsBinCount (corpus ++ [r]) i = lyricsBinCount corpus i ∧
      audioLowPct (corpus ++ [r]) m = audioLowPct corpus m ∧
      lyricsLowPct (corpus ++ [r]) m = lyricsLowPct corpus m := by
    intro hc
    refine ⟨hc, ?_, ?_, ?_, ?_⟩
    · unfold audioBinCount; rw [hc]
    · unfold lyricsBinCount; rw [hc]
    · unfold audioLowPct; rw [hc]
    · unfold lyricsLowPct; rw [hc]
  constructor
  · intro _ hlyr
    exact hstats (confRows_append_nonnumeric corpus r (Or.inr hlyr))
  · intro haud _
    exact hstats (confRows_append_nonnumeric corpus r (Or.inl haud))

/-- Witness for C10: a row with numeric audio confidence but missing
lyrics confidence leaves the audio histogram count unchanged. -/
theorem claim_C10_conf_stats_joint_witness :
    (toNumOpt rowNoLyrConf.audioConf).isSome = true ∧
    toNumOpt rowNoLyrConf.lyricsConf = none ∧
    audioBinCount ([rowBothConf] ++ [rowNoLyrConf]) 4
      = audioBinCount [rowBothConf] 4 ∧
    audioLowPct ([rowBothConf] ++ [rowNoLyrConf]) "happy"
      = audioLowPct [rowBothConf] "happy" :=
  ⟨rfl, rfl,
    ((claim_C10_conf_stats_joint [rowBothConf] rowNoLyrConf 4 "happy").1
      rfl rfl).2.1,
    ((claim_C10_conf_stats_joint [rowBothConf] rowNoLyrConf 4 "happy").1
      rfl rfl).2.2.2.1⟩

/-- Claim C1: for non-empty, non-missing lyrics text, classify_lyrics maps
the VADER compound score (always in [-1, 1]) by the ordered threshold
table, first match wins, and the energetic-keyword override to hyped with
confidence min(0.9, |compound| + 0.2) takes precedence over the table
whenever the lowercased text contains a keyword and compound > 0.2:
the source computation coincides with the spec-side map `specMoodMap`. -/
theorem claim_C1_lyrics_mood_map (vader : String → ℚ) (s : String)
    (hne : strTrim s ≠ "") (hb : |vader s| ≤ 1) :
    classifyLyrics vader (Lyr.text s) = specMoodMap (hasHypedKw s) (vader s) := by
  have hs : s ≠ "" := fun h => hne (by rw [h]; rfl)
  have hempty : lyrIsEmpty (Lyr.text s) = false := by
    show (s == "" || strTrim s == "") = false
    rw [beq_eq_false_iff_ne.mpr hs, beq_eq_false_iff_ne.mpr hne]
    rfl
  unfold classifyLyrics
  rw [hempty]
  simp only [Bool.false_eq_true, if_false, lyrStr]
  have habs0 : 0 ≤ |vader s| := abs_nonneg (vader s)
  have hcabs : vader s ≤ |vader s| := le_abs_self (vader s)
  rcases hP : hasHypedKw s && decide (vader s > 1/5) with _ | _
  · -- no override: the threshold table decides
    simp only [hP, Bool.false_eq_true, if_false]
    have hPn : ¬(hasHypedKw s = true ∧ vader s > 1/5) := by
      rintro ⟨h1, h2⟩
      rw [h1, Bool.true_and] at hP
      exact absurd h2 (of_decide_eq_false hP)
    by_cases h2 : vader s > 1/2
    · have ht : thresholdTable (vader s) = ("happy", vader s) := by
        unfold thresholdTable; rw [if_pos h2]
      have hspec : specMoodMap (hasHypedKw s) (vader s) = ("happy", vader s) := by
        unfold specMoodMap; rw [if_neg hPn, if_pos h2]
      rw [ht, hspec]
      dsimp only
      rw [show (if moodLabels.contains "happy" = true then "happy" else "chill")
            = "happy" from rfl]
      rw [min_eq_right (le_trans hcabs hb), max_eq_right (by linarith)]
    · by_cases h3 : vader s > 1/10
      · have ht : thresholdTable (vader s)
            = ("chill", 1/2 + (vader s - 1/10) * (5/8)) := by
          unfold thresholdTable; rw [if_neg h2, if_pos h3]
        have hspec : specMoodMap (hasHypedKw s) (vader s)
            = ("chill", 1/2 + (vader s - 1/10) * (5/8)) := by
          unfold specMoodMap
          rw [if_neg hPn, if_neg h2, if_pos ⟨h3, le_of_not_lt h2⟩]
        rw [ht, hspec]
        dsimp only
        rw [show (if moodLabels.contains "chill" = true then "chill" else "chill")
              = "chill" from rfl]
        have hle : 1/2 + (vader s - 1/10) * (5/8) ≤ 1 := by
          have : vader s ≤ 1/2 := le_of_not_lt h2
          linarith
        rw [min_eq_right hle, max_eq_right (by linarith)]
      · by_cases h4 : vader s < -(1/2)
        · have ht : thresholdTable (vader s) = ("sad", |vader s|) := by
            unfold thresholdTable; rw [if_neg h2, if_neg h3, if_pos h4]
          have hspec : specMoodMap (hasHypedKw s) (vader s)
              = ("sad", |vader s|) := by
            unfold specMoodMap
            rw [if_neg hPn, if_neg h2,
              if_neg (fun hand => h3 hand.1), if_pos h4]
          rw [ht, hspec]
          dsimp only
          rw [show (if moodLabels.contains "sad" = true then "sad" else "chill")
                = "sad" from rfl]
          rw [min_eq_right hb, max_eq_right habs0]
        · by_cases h5 : vader s < -(1/10)
          · by_cases h6 : |vader s| > 3/10
            · have ht : thresholdTable (vader s) = ("sad", |vader s|) := by
                unfold thresholdTable
                rw [if_neg h2, if_neg h3, if_neg h4, if_pos h5, if_pos h6]
              have hspec : specMoodMap (hasHypedKw s) (vader s)
                  = ("sad", |vader s|) := by
                unfold specMoodMap
                rw [if_neg hPn, if_neg h2, if_neg (fun hand => h3 hand.1),
                  if_neg h4, if_pos ⟨le_of_not_lt h4, h5⟩, if_pos h6]
              rw [ht, hspec]
              dsimp only
              rw [show (if moodLabels.contains "sad" = true then "sad" else "chill")
                    = "sad" from rfl]
              rw [min_eq_right hb, max_eq_right habs0]
            · have ht : thresholdTable (vader s)
                  = ("chill", 11/20 + (3/10 - |vader s|) * (1/2)) := by
                unfold thresholdTable
                rw [if_neg h2, if_neg h3, if_neg h4, if_pos h5, if_neg h6]
              have hspec : specMoodMap (hasHypedKw s) (vader s)
                  = ("chill", 11/20 + (3/10 - |vader s|) * (1/2)) := by
                unfold specMoodMap
                rw [if_neg hPn, if_neg h2, if_neg (fun hand => h3 hand.1),
                  if_neg h4, if_pos ⟨le_of_not_lt h4, h5⟩, if_neg h6]
              rw [ht, hspec]
              dsimp only
              rw [show (if moodLabels.contains "chill" = true then "chill" else "chill")
                    = "chill" from rfl]
              have hle : 11/20 + (3/10 - |vader s|) * (1/2) ≤ 1 := by linarith
              have h0 : 0 ≤ 11/20 + (3/10 - |vader s|) * (1/2) := by
                have : |vader s| ≤ 3/10 := le_of_not_lt h6
                linarith
              rw [min_eq_right hle, max_eq_right h0]
          · have ht : thresholdTable (vader s) = ("chill", 13/20) := by
              unfold thresholdTable
              rw [if_neg h2, if_neg h3, if_neg h4, if_neg h5]
            have hspec : specMoodMap (hasHypedKw s) (vader s)
                = ("chill", 13/20) := by
              unfold specMoodMap
              rw [if_neg hPn, if_neg h2, if_neg (fun hand => h3 hand.1),
                if_neg h4, if_neg (fun hand => h5 hand.2)]
            rw [ht, hspec]
            dsimp only
            rw [show (if moodLabels.contains "chill" = true then "chill" else "chill")
                  = "chill" from rfl]
            rw [min_eq_right (by norm_num), max_eq_right (by norm_num)]
  · -- keyword override fires
    simp only [hP, if_true]
    have hP2 := hP
    simp only [Bool.and_eq_true] at hP2
    obtain ⟨hkw, hc5b⟩ := hP2
    have hc5 : vader s > 1/5 := of_decide_eq_true hc5b
    have hspec : specMoodMap (hasHypedKw s) (vader s)
        = ("hyped", min (9/10 : ℚ) (|vader s| + 1/5)) := by
      unfold specMoodMap; rw [if_pos ⟨hkw, hc5⟩]
    rw [hspec]
    rw [show (if moodLabels.contains "hyped" = true then "hyped" else "chill")
          = "hyped" from rfl]
    have hle : min (9/10 : ℚ) (|vader s| + 1/5) ≤ 1 :=
      le_trans (min_le_left _ _) (by norm_num)
    have h0 : 0 ≤ min (9/10 : ℚ) (|vader s| + 1/5) :=
      le_min (by norm_num) (by linarith)
    rw [min_eq_right hle, max_eq_right h0]

/-- Witness for C1: the text "party" holds an energetic keyword; with a
compound score of 0.6 the override yields hyped with confidence 0.8. -/
theorem claim_C1_lyrics_mood_map_witness :
    strTrim "party" ≠ "" ∧ |(3/5 : ℚ)| ≤ 1 ∧
    classifyLyrics (fun _ => 3/5) (Lyr.text "party")
      = specMoodMap (hasHypedKw "party") (3/5) ∧
    specMoodMap (hasHypedKw "party") (3/5) = ("hyped", 4/5) := by
  refine ⟨by decide,
    by rw [abs_of_nonneg (by norm_num : (0:ℚ) ≤ 3/5)]; norm_num,
    claim_C1_lyrics_mood_map (fun _ => 3/5) "party" (by decide)
      (by rw [abs_of_nonneg (by norm_num : (0:ℚ) ≤ 3/5)]; norm_num), ?_⟩
  have hkw : hasHypedKw "party" = true := by decide
  rw [specMoodMap, if_pos ⟨hkw, by norm_num⟩]
  norm_num [abs_of_nonneg, min_def]
